import Mathlib

/-!
Verification of the income/expense tracker server (`src/main.py`) and its
agent client (`src/client1.py`).

The server stores three SQLite tables (expenses, income, budgets) and exposes
nine tools, each a single SQL statement.  We embed the store as explicit
state: each table is a list of rows, and the `AUTOINCREMENT` id generators of
the `expenses` and `income` tables are explicit counters (SQLite's
`sqlite_sequence` mechanism: a deleted row's id is never handed out again).
SQL `REAL` amounts are modelled as integers; `TEXT` comparison (`BETWEEN`,
`ORDER BY`) is binary byte comparison in SQLite, modelled by the
lexicographic order on `String`.  `ORDER BY` is modelled by Mathlib's
`List.insertionSort`, a stable sort, matching SQLite's deterministic output
on these single-key queries.
-/

/-- A row of the `expenses` table of `init_db`. -/
structure Expense where
  id : Nat
  date : String
  amount : Int
  category : String
  subcategory : String
  note : String
deriving DecidableEq, Repr

/-- A row of the `income` table of `init_db`. -/
structure Income where
  id : Nat
  date : String
  amount : Int
  source : String
  note : String
deriving DecidableEq, Repr

/-- A row of the `budgets` table of `init_db` (`category` is the primary key). -/
structure Budget where
  category : String
  monthly_limit : Int
deriving DecidableEq, Repr

/-- The whole database file: the three tables plus the two `AUTOINCREMENT`
sequence counters (largest id ever assigned in each table). -/
structure DB where
  expenses : List Expense
  income : List Income
  budgets : List Budget
  expenseSeq : Nat
  incomeSeq : Nat
deriving DecidableEq, Repr

/-- State produced by `init_db` on a fresh file: empty tables, sequences at zero. -/
def init_db : DB := ⟨[], [], [], 0, 0⟩

/-- Tool `add_expense`: INSERT INTO expenses; returns status `ok` and the new
row id (`cur.lastrowid`) together with the new database state. -/
def add_expense (date : String) (amount : Int) (category : String)
    (subcategory : String) (note : String) (db : DB) : (String × Nat) × DB :=
  let newId := db.expenseSeq + 1
  (("ok", newId),
    { db with
        expenses := db.expenses ++ [⟨newId, date, amount, category, subcategory, note⟩],
        expenseSeq := newId })

/-- The `WHERE date BETWEEN ? AND ?` predicate (inclusive bounds, string order). -/
def dateBetween (d1 d2 : String) (date : String) : Bool :=
  decide (d1 ≤ date ∧ date ≤ d2)

/-- Tool `list_expenses`: SELECT ... WHERE date BETWEEN ? AND ? ORDER BY id ASC. -/
def list_expenses (d1 d2 : String) (db : DB) : List Expense :=
  List.insertionSort (fun a b => a.id ≤ b.id)
    (db.expenses.filter (fun e => dateBetween d1 d2 e.date))

/-- Tool `summarize`: SELECT category, SUM(amount) ... GROUP BY category
ORDER BY category ASC; the extra `AND category = ?` filter is added only when
the Python argument is truthy (`if category:`), i.e. present and non-empty. -/
def summarize (d1 d2 : String) (category : Option String) (db : DB) :
    List (String × Int) :=
  let base := db.expenses.filter (fun e => dateBetween d1 d2 e.date)
  let rows :=
    match category with
    | some c => if c = "" then base else base.filter (fun e => decide (e.category = c))
    | none => base
  let cats := List.insertionSort (fun a b : String => a ≤ b) (rows.map (·.category)).dedup
  cats.map (fun c =>
    (c, ((rows.filter (fun e => decide (e.category = c))).map (·.amount)).sum))

/-- The SET clause of `update_expense` applied to one row: each supplied
(non-`None`) field overwrites the old value, absent fields are kept. -/
def applyPatch (date : Option String) (amount : Option Int)
    (category subcategory note : Option String) (e : Expense) : Expense :=
  { e with
      date := date.getD e.date,
      amount := amount.getD e.amount,
      category := category.getD e.category,
      subcategory := subcategory.getD e.subcategory,
      note := note.getD e.note }

/-- Tool `update_expense`: if every optional field is `None` it returns
`no_changes` without touching the database; otherwise it runs
`UPDATE expenses SET ... WHERE id = ?` (updating every row whose id matches,
zero rows when none does) and returns `ok`. -/
def update_expense (expense_id : Nat) (date : Option String) (amount : Option Int)
    (category subcategory note : Option String) (db : DB) : String × DB :=
  if date = none ∧ amount = none ∧ category = none ∧ subcategory = none ∧ note = none then
    ("no_changes", db)
  else
    ("ok",
      { db with
          expenses := db.expenses.map (fun e =>
            if e.id = expense_id then applyPatch date amount category subcategory note e
            else e) })

/-- Tool `delete_expense`: DELETE FROM expenses WHERE id = ?; always returns `deleted`. -/
def delete_expense (expense_id : Nat) (db : DB) : String × DB :=
  ("deleted", { db with expenses := db.expenses.filter (fun e => decide (e.id ≠ expense_id)) })

/-- Tool `add_income`: INSERT INTO income; returns the new row id. -/
def add_income (date : String) (amount : Int) (source : String) (note : String)
    (db : DB) : (String × Nat) × DB :=
  let newId := db.incomeSeq + 1
  (("ok", newId),
    { db with
        income := db.income ++ [⟨newId, date, amount, source, note⟩],
        incomeSeq := newId })

/-- Tool `list_income`: SELECT ... WHERE date BETWEEN ? AND ? ORDER BY date. -/
def list_income (d1 d2 : String) (db : DB) : List Income :=
  List.insertionSort (fun a b => a.date ≤ b.date)
    (db.income.filter (fun i => dateBetween d1 d2 i.date))

/-- The list-level effect of `INSERT ... ON CONFLICT(category) DO UPDATE SET
monthly_limit = excluded.monthly_limit`: overwrite the limit of every row
whose key matches (the primary key makes it at most one), else append. -/
def upsertBudget (category : String) (monthly_limit : Int) (bs : List Budget) :
    List Budget :=
  if bs.any (fun b => decide (b.category = category)) then
    bs.map (fun b =>
      if b.category = category then { b with monthly_limit := monthly_limit } else b)
  else
    bs ++ [⟨category, monthly_limit⟩]

/-- Tool `set_budget`: INSERT ... ON CONFLICT(category) DO UPDATE SET
monthly_limit = excluded.monthly_limit (upsert on the primary key). -/
def set_budget (category : String) (monthly_limit : Int) (db : DB) : String × DB :=
  ("ok", { db with budgets := upsertBudget category monthly_limit db.budgets })

/-- A row of the `budget_status` result set. -/
structure BudgetRow where
  category : String
  monthly_limit : Int
  spent : Int
  remaining : Int
deriving DecidableEq, Repr

/-- The join condition of `budget_status`: the expense belongs to the budget
category and `substr(e.date, 1, 7)` equals the month argument. -/
def monthMatch (m : String) (cat : String) (e : Expense) : Bool :=
  decide (e.category = cat) && decide (e.date.take 7 = m)

/-- Tool `budget_status`: budgets LEFT JOIN expenses on category and
`substr(e.date,1,7) = month`, GROUP BY b.category ORDER BY b.category, with
`IFNULL(SUM(e.amount), 0)` as spent and `monthly_limit - spent` as remaining.
Since `category` is the budgets primary key each budget row is its own group. -/
def budget_status (m : String) (db : DB) : List BudgetRow :=
  (List.insertionSort (fun a b : Budget => a.category ≤ b.category) db.budgets).map
    (fun b =>
      let spent := ((db.expenses.filter (monthMatch m b.category)).map (·.amount)).sum
      ⟨b.category, b.monthly_limit, spent, b.monthly_limit - spent⟩)

/-!
The agent client (`src/client1.py`).  `main()` discovers the tools, then: if
`os.getenv("OPENAI_API_KEY")` is falsy (unset, or set to the empty string) it
invokes `list_expenses` once with the fixed wide range 2000-01-01..2100-01-01
and returns; otherwise it sends one completion request to the model, executes
each requested tool call in order, and (when the model requested at least one
tool call) sends one follow-up completion request with the results.  We
record the externally visible actions as a trace; the model's reply is a
parameter, since it is an external nondeterministic input.
-/

/-- One tool call requested by the model (name and serialized arguments). -/
structure ToolCall where
  name : String
  args : List (String × String)
deriving DecidableEq, Repr

/-- An externally visible action of the client: a tool invocation over the
MCP transport, or a completion request to the language model. -/
inductive ClientAction where
  | invokeTool (name : String) (args : List (String × String))
  | modelCall
deriving DecidableEq, Repr

/-- The trace of actions performed by `main()` in `client1.py`, as a function
of the `OPENAI_API_KEY` environment variable (`none` when unset) and of the
tool calls contained in the model's first reply. -/
def clientMain (apiKey : Option String) (replyToolCalls : List ToolCall) :
    List ClientAction :=
  match apiKey with
  | none =>
      [.invokeTool "list_expenses" [("start_date", "2000-01-01"), ("end_date", "2100-01-01")]]
  | some k =>
      if k = "" then
        [.invokeTool "list_expenses" [("start_date", "2000-01-01"), ("end_date", "2100-01-01")]]
      else
        .modelCall ::
          (if replyToolCalls = [] then []
           else (replyToolCalls.map (fun tc => .invokeTool tc.name tc.args)) ++ [.modelCall])

/-!
Operation traces over one database lifetime, for the id-monotonicity claim:
any sequence of tool invocations, run from a starting state.
-/

/-- One tool invocation (the arguments that matter for the state). -/
inductive Op where
  | addExpense (date : String) (amount : Int) (category subcategory note : String)
  | addIncome (date : String) (amount : Int) (source note : String)
  | updateExpense (i : Nat) (d : Option String) (a : Option Int) (c s n : Option String)
  | deleteExpense (i : Nat)
  | setBudget (c : String) (l : Int)
  | listExpensesOp (d1 d2 : String)
  | listIncomeOp (d1 d2 : String)
  | summarizeOp (d1 d2 : String) (c : Option String)
  | budgetStatusOp (m : String)

/-- The database state after one tool invocation (read-only tools leave it
unchanged). -/
def applyOp (db : DB) : Op → DB
  | .addExpense d a c s n => (add_expense d a c s n db).2
  | .addIncome d a s n => (add_income d a s n db).2
  | .updateExpense i d a c s n => (update_expense i d a c s n db).2
  | .deleteExpense i => (delete_expense i db).2
  | .setBudget c l => (set_budget c l db).2
  | .listExpensesOp _ _ => db
  | .listIncomeOp _ _ => db
  | .summarizeOp _ _ _ => db
  | .budgetStatusOp _ => db

/-- The ids handed back by `add_expense` along a run, in order. -/
def expenseIdsOf (db : DB) : List Op → List Nat
  | [] => []
  | op :: ops =>
      match op with
      | .addExpense d a c s n => (add_expense d a c s n db).1.2 :: expenseIdsOf (applyOp db op) ops
      | _ => expenseIdsOf (applyOp db op) ops

/-- The ids handed back by `add_income` along a run, in order. -/
def incomeIdsOf (db : DB) : List Op → List Nat
  | [] => []
  | op :: ops =>
      match op with
      | .addIncome d a s n => (add_income d a s n db).1.2 :: incomeIdsOf (applyOp db op) ops
      | _ => incomeIdsOf (applyOp db op) ops

/-! Theorems. -/

instance : IsTotal Expense (fun a b => a.id ≤ b.id) :=
  ⟨fun a b => Nat.le_total a.id b.id⟩

instance : IsTrans Expense (fun a b => a.id ≤ b.id) :=
  ⟨fun _ _ _ h1 h2 => Nat.le_trans h1 h2⟩

instance : IsTotal Income (fun a b => a.date ≤ b.date) :=
  ⟨fun a b => le_total a.date b.date⟩

instance : IsTrans Income (fun a b => a.date ≤ b.date) :=
  ⟨fun _ _ _ h1 h2 => le_trans h1 h2⟩

instance : IsTotal Budget (fun a b => a.category ≤ b.category) :=
  ⟨fun a b => le_total a.category b.category⟩

instance : IsTrans Budget (fun a b => a.category ≤ b.category) :=
  ⟨fun _ _ _ h1 h2 => le_trans h1 h2⟩

/-- Claim C1: for all bound strings `d1, d2`, `list_expenses d1 d2` returns
exactly the stored expense rows with `d1 ≤ date ≤ d2` under lexicographic
string comparison (as a multiset, hence as a set), ordered by ascending id. -/
theorem list_expenses_spec (d1 d2 : String) (db : DB) :
    (list_expenses d1 d2 db).Perm
        (db.expenses.filter (fun e => dateBetween d1 d2 e.date)) ∧
    (∀ e : Expense, e ∈ list_expenses d1 d2 db ↔
        e ∈ db.expenses ∧ d1 ≤ e.date ∧ e.date ≤ d2) ∧
    (list_expenses d1 d2 db).Sorted (fun a b => a.id ≤ b.id) := by
  refine ⟨List.perm_insertionSort _ _, fun e => ?_, List.sorted_insertionSort _ _⟩
  simp [list_expenses, List.mem_insertionSort, List.mem_filter, dateBetween, and_assoc]

/-- Claim C8: `list_income` returns the income rows in the inclusive range,
ordered by ascending date; and this ordering is not ascending-id order: there
is a database on which the output is not id-sorted. -/
theorem list_income_spec :
    (∀ (d1 d2 : String) (db : DB),
      (list_income d1 d2 db).Perm
          (db.income.filter (fun i => dateBetween d1 d2 i.date)) ∧
      (∀ i : Income, i ∈ list_income d1 d2 db ↔
          i ∈ db.income ∧ d1 ≤ i.date ∧ i.date ≤ d2) ∧
      (list_income d1 d2 db).Sorted (fun a b => a.date ≤ b.date)) ∧
    (∃ (d1 d2 : String) (db : DB),
      ¬ (list_income d1 d2 db).Sorted (fun a b : Income => a.id ≤ b.id)) := by
  constructor
  · intro d1 d2 db
    refine ⟨List.perm_insertionSort _ _, fun i => ?_, List.sorted_insertionSort _ _⟩
    simp [list_income, List.mem_insertionSort, List.mem_filter, dateBetween, and_assoc]
  · refine ⟨"a", "b", ⟨[], [⟨1, "b", 0, "s", ""⟩, ⟨2, "a", 0, "s", ""⟩], [], 0, 2⟩, ?_⟩
    have hba : ¬ ("b" : String) ≤ "a" := by rw [String.le_iff_toList_le]; decide
    have hab : ("a" : String) ≤ "b" := by rw [String.le_iff_toList_le]; decide
    have hcomp :
        list_income "a" "b" ⟨[], [⟨1, "b", 0, "s", ""⟩, ⟨2, "a", 0, "s", ""⟩], [], 0, 2⟩ =
          [⟨2, "a", 0, "s", ""⟩, ⟨1, "b", 0, "s", ""⟩] := by
      simp [list_income, dateBetween, List.insertionSort, List.orderedInsert, hba, hab,
        le_refl]
      decide
    rw [hcomp]
    simp [List.sorted_cons]

/-- A list is `Forall₂`-related to its image under a map as soon as each
element is related to its own image. -/
theorem forall₂_map_self {α : Type _} (f : α → α) (R : α → α → Prop) :
    ∀ l : List α, (∀ x ∈ l, R x (f x)) → List.Forall₂ R l (l.map f)
  | [], _ => List.Forall₂.nil
  | x :: xs, h =>
      List.Forall₂.cons (h x (List.mem_cons_self x xs))
        (forall₂_map_self f R xs fun y hy => h y (List.mem_cons_of_mem x hy))

/-- Claim C3: `update_expense` with every optional field absent returns
`no_changes` and leaves the database unchanged; with any non-empty subset of
fields supplied it returns `ok`, leaves the other tables and the sequence
untouched, keeps every row with a different id identical, and on the
addressed row sets exactly the supplied fields and preserves the rest. -/
theorem update_expense_spec (i : Nat) (d : Option String) (a : Option Int)
    (c s n : Option String) (db : DB) :
    (d = none ∧ a = none ∧ c = none ∧ s = none ∧ n = none →
      update_expense i d a c s n db = ("no_changes", db)) ∧
    (¬ (d = none ∧ a = none ∧ c = none ∧ s = none ∧ n = none) →
      (update_expense i d a c s n db).1 = "ok" ∧
      (update_expense i d a c s n db).2.income = db.income ∧
      (update_expense i d a c s n db).2.budgets = db.budgets ∧
      (update_expense i d a c s n db).2.expenseSeq = db.expenseSeq ∧
      List.Forall₂ (fun e e' : Expense =>
          (e.id ≠ i → e' = e) ∧
          (e.id = i → e'.id = e.id ∧ e'.date = d.getD e.date ∧
            e'.amount = a.getD e.amount ∧ e'.category = c.getD e.category ∧
            e'.subcategory = s.getD e.subcategory ∧ e'.note = n.getD e.note))
        db.expenses (update_expense i d a c s n db).2.expenses) := by
  constructor
  · intro h
    simp only [update_expense, if_pos h]
  · intro h
    simp only [update_expense, if_neg h]
    refine ⟨trivial, trivial, trivial, trivial, ?_⟩
    apply forall₂_map_self
    intro e _
    by_cases he : e.id = i
    · simp [he, applyPatch]
    · simp [he]

/-- Claim C10: `update_expense` on an id that matches no stored row, with at
least one field supplied, still returns `ok` and leaves the database
entirely unchanged: the status never reflects whether the row exists. -/
theorem update_expense_missing_row (i : Nat) (d : Option String) (a : Option Int)
    (c s n : Option String) (db : DB)
    (hrow : ∀ e ∈ db.expenses, e.id ≠ i)
    (hsome : ¬ (d = none ∧ a = none ∧ c = none ∧ s = none ∧ n = none)) :
    update_expense i d a c s n db = ("ok", db) := by
  simp only [update_expense, if_neg hsome]
  have hmap : db.expenses.map
      (fun e => if e.id = i then applyPatch d a c s n e else e) = db.expenses := by
    conv_rhs => rw [← List.map_id db.expenses]
    exact List.map_congr_left fun e he => by simp [hrow e he]
  rw [hmap]

/-- A one-expense database used to instantiate the update theorems. -/
def wdb3 : DB := ⟨[⟨1, "2024-01-15", 5000, "shopping", "", "New shoes"⟩], [], [], 1, 0⟩

/-- Witness for claim C3, at the one-expense database `wdb3`. -/
theorem update_expense_spec_witness :
    update_expense 1 none none none none none wdb3 = ("no_changes", wdb3) ∧
    (update_expense 1 (some "2024-02-02") none none none none wdb3).1 = "ok" :=
  ⟨(update_expense_spec 1 none none none none none wdb3).1 ⟨rfl, rfl, rfl, rfl, rfl⟩,
   ((update_expense_spec 1 (some "2024-02-02") none none none none wdb3).2
      (by simp)).1⟩

/-- Witness for claim C10: updating the absent id 2 of `wdb3` with a new
date reports `ok` and changes nothing. -/
theorem update_expense_missing_row_witness :
    update_expense 2 (some "2024-02-02") none none none none wdb3 = ("ok", wdb3) :=
  update_expense_missing_row 2 (some "2024-02-02") none none none none wdb3
    (by decide) (by simp)

/-- Claim C5: `delete_expense` always returns `deleted`; when no stored row
has the id it leaves the database unchanged; and deleting the same id twice
is the same as deleting it once. -/
theorem delete_expense_spec (i : Nat) (db : DB) :
    (delete_expense i db).1 = "deleted" ∧
    ((∀ e ∈ db.expenses, e.id ≠ i) → (delete_expense i db).2 = db) ∧
    (delete_expense i (delete_expense i db).2).2 = (delete_expense i db).2 := by
  refine ⟨rfl, ?_, ?_⟩
  · intro h
    have hfil : db.expenses.filter (fun e => decide (e.id ≠ i)) = db.expenses :=
      List.filter_eq_self.mpr fun e he => by simp [h e he]
    simp only [delete_expense, hfil]
  · simp only [delete_expense, List.filter_filter]
    congr 1
    apply List.filter_congr
    intro e _
    simp

/-- Witness for claim C5: deleting the absent id 5 from the fresh database
leaves it unchanged. -/
theorem delete_expense_spec_witness :
    (∀ e ∈ init_db.expenses, e.id ≠ 5) ∧ (delete_expense 5 init_db).2 = init_db :=
  ⟨by decide, (delete_expense_spec 5 init_db).2.1 (by decide)⟩

/-- Claim C9: with no model credential in the environment, the client
performs exactly the one fixed `list_expenses` invocation over the wide date
range and never issues a model call, whatever the model would have replied;
the branch returns a normal trace rather than failing. -/
theorem client_no_credential (reply : List ToolCall) :
    clientMain none reply =
      [ClientAction.invokeTool "list_expenses"
          [("start_date", "2000-01-01"), ("end_date", "2100-01-01")]] ∧
    ClientAction.modelCall ∉ clientMain none reply := by
  refine ⟨rfl, ?_⟩
  simp [clientMain]

/-- No tool invocation ever lowers the expense id sequence. -/
theorem applyOp_expenseSeq_le (db : DB) (op : Op) :
    db.expenseSeq ≤ (applyOp db op).expenseSeq := by
  cases op with
  | addExpense d a c s n => simp [applyOp, add_expense]
  | addIncome d a s n => simp [applyOp, add_income]
  | updateExpense i d a c s n =>
      by_cases h : d = none ∧ a = none ∧ c = none ∧ s = none ∧ n = none
      · simp [applyOp, update_expense, h]
      · simp [applyOp, update_expense, h]
  | deleteExpense i => simp [applyOp, delete_expense]
  | setBudget c l => simp [applyOp, set_budget]
  | listExpensesOp d1 d2 => exact le_refl _
  | listIncomeOp d1 d2 => exact le_refl _
  | summarizeOp d1 d2 c => exact le_refl _
  | budgetStatusOp m => exact le_refl _

/-- No tool invocation ever lowers the income id sequence. -/
theorem applyOp_incomeSeq_le (db : DB) (op : Op) :
    db.incomeSeq ≤ (applyOp db op).incomeSeq := by
  cases op with
  | addExpense d a c s n => simp [applyOp, add_expense]
  | addIncome d a s n => simp [applyOp, add_income]
  | updateExpense i d a c s n =>
      by_cases h : d = none ∧ a = none ∧ c = none ∧ s = none ∧ n = none
      · simp [applyOp, update_expense, h]
      · simp [applyOp, update_expense, h]
  | deleteExpense i => simp [applyOp, delete_expense]
  | setBudget c l => simp [applyOp, set_budget]
  | listExpensesOp d1 d2 => exact le_refl _
  | listIncomeOp d1 d2 => exact le_refl _
  | summarizeOp d1 d2 c => exact le_refl _
  | budgetStatusOp m => exact le_refl _

/-- Every expense id returned during a run is above the starting sequence. -/
theorem expenseIdsOf_gt (ops : List Op) :
    ∀ (db : DB) (x : Nat), x ∈ expenseIdsOf db ops → db.expenseSeq < x := by
  induction ops with
  | nil => intro db x hx; simp [expenseIdsOf] at hx
  | cons op ops ih =>
      intro db x hx
      cases op with
      | addExpense d a c s n =>
          rcases List.mem_cons.mp hx with h | h
          · subst h; simp [add_expense]
          · have h1 := ih _ _ h
            simp [applyOp, add_expense] at h1
            omega
      | addIncome d a s n =>
          exact lt_of_le_of_lt (applyOp_expenseSeq_le db _) (ih _ _ hx)
      | updateExpense i d a c s n =>
          exact lt_of_le_of_lt (applyOp_expenseSeq_le db _) (ih _ _ hx)
      | deleteExpense i =>
          exact lt_of_le_of_lt (applyOp_expenseSeq_le db _) (ih _ _ hx)
      | setBudget c l =>
          exact lt_of_le_of_lt (applyOp_expenseSeq_le db _) (ih _ _ hx)
      | listExpensesOp d1 d2 =>
          exact lt_of_le_of_lt (applyOp_expenseSeq_le db _) (ih _ _ hx)
      | listIncomeOp d1 d2 =>
          exact lt_of_le_of_lt (applyOp_expenseSeq_le db _) (ih _ _ hx)
      | summarizeOp d1 d2 c =>
          exact lt_of_le_of_lt (applyOp_expenseSeq_le db _) (ih _ _ hx)
      | budgetStatusOp m =>
          exact lt_of_le_of_lt (applyOp_expenseSeq_le db _) (ih _ _ hx)

/-- Every income id returned during a run is above the starting sequence. -/
theorem incomeIdsOf_gt (ops : List Op) :
    ∀ (db : DB) (x : Nat), x ∈ incomeIdsOf db ops → db.incomeSeq < x := by
  induction ops with
  | nil => intro db x hx; simp [incomeIdsOf] at hx
  | cons op ops ih =>
      intro db x hx
      cases op with
      | addIncome d a s n =>
          rcases List.mem_cons.mp hx with h | h
          · subst h; simp [add_income]
          · have h1 := ih _ _ h
            simp [applyOp, add_income] at h1
            omega
      | addExpense d a c s n =>
          exact lt_of_le_of_lt (applyOp_incomeSeq_le db _) (ih _ _ hx)
      | updateExpense i d a c s n =>
          exact lt_of_le_of_lt (applyOp_incomeSeq_le db _) (ih _ _ hx)
      | deleteExpense i =>
          exact lt_of_le_of_lt (applyOp_incomeSeq_le db _) (ih _ _ hx)
      | setBudget c l =>
          exact lt_of_le_of_lt (applyOp_incomeSeq_le db _) (ih _ _ hx)
      | listExpensesOp d1 d2 =>
          exact lt_of_le_of_lt (applyOp_incomeSeq_le db _) (ih _ _ hx)
      | listIncomeOp d1 d2 =>
          exact lt_of_le_of_lt (applyOp_incomeSeq_le db _) (ih _ _ hx)
      | summarizeOp d1 d2 c =>
          exact lt_of_le_of_lt (applyOp_incomeSeq_le db _) (ih _ _ hx)
      | budgetStatusOp m =>
          exact lt_of_le_of_lt (applyOp_incomeSeq_le db _) (ih _ _ hx)

/-- Claim C6: along any sequence of tool invocations in one database
lifetime, the ids returned by `add_expense` are pairwise strictly increasing
in order of return, and likewise for `add_income`; in particular no id is
ever returned twice, even after the row holding it is deleted. -/
theorem ids_strictly_increasing (db : DB) (ops : List Op) :
    (expenseIdsOf db ops).Pairwise (· < ·) ∧
    (incomeIdsOf db ops).Pairwise (· < ·) := by
  constructor
  · induction ops generalizing db with
    | nil => simp [expenseIdsOf]
    | cons op ops ih =>
        cases op with
        | addExpense d a c s n =>
            refine List.Pairwise.cons ?_ (ih _)
            intro x hx
            have h1 := expenseIdsOf_gt ops _ x hx
            simp only [applyOp, add_expense] at h1
            simp [add_expense]
            omega
        | addIncome d a s n => exact ih _
        | updateExpense i d a c s n => exact ih _
        | deleteExpense i => exact ih _
        | setBudget c l => exact ih _
        | listExpensesOp d1 d2 => exact ih _
        | listIncomeOp d1 d2 => exact ih _
        | summarizeOp d1 d2 c => exact ih _
        | budgetStatusOp m => exact ih _
  · induction ops generalizing db with
    | nil => simp [incomeIdsOf]
    | cons op ops ih =>
        cases op with
        | addIncome d a s n =>
            refine List.Pairwise.cons ?_ (ih _)
            intro x hx
            have h1 := incomeIdsOf_gt ops _ x hx
            simp only [applyOp, add_income] at h1
            simp [add_income]
            omega
        | addExpense d a c s n => exact ih _
        | updateExpense i d a c s n => exact ih _
        | deleteExpense i => exact ih _
        | setBudget c l => exact ih _
        | listExpensesOp d1 d2 => exact ih _
        | listIncomeOp d1 d2 => exact ih _
        | summarizeOp d1 d2 c => exact ih _
        | budgetStatusOp m => exact ih _

/-- Overwriting the limit of a key leaves every row's category unchanged. -/
theorem upsertBudget_categories (c : String) (l : Int) (bs : List Budget) :
    (upsertBudget c l bs).map Budget.category =
      if bs.any (fun b => decide (b.category = c)) then bs.map Budget.category
      else bs.map Budget.category ++ [c] := by
  by_cases h : bs.any (fun b => decide (b.category = c))
  · rw [upsertBudget, if_pos h, if_pos h, List.map_map]
    apply List.map_congr_left
    intro b _
    by_cases hb : b.category = c <;> simp [hb]
  · rw [upsertBudget, if_neg h, if_neg h, List.map_append]
    rfl

/-- The upsert preserves the primary-key invariant: category keys stay
pairwise distinct. -/
theorem upsertBudget_nodup (c : String) (l : Int) (bs : List Budget)
    (h : (bs.map Budget.category).Nodup) :
    ((upsertBudget c l bs).map Budget.category).Nodup := by
  rw [upsertBudget_categories]
  by_cases hany : bs.any (fun b => decide (b.category = c))
  · rwa [if_pos hany]
  · rw [if_neg hany]
    have hc : c ∉ bs.map Budget.category := by
      simp only [List.any_eq_true, decide_eq_true_eq] at hany
      simp only [List.mem_map]
      rintro ⟨b, hb, rfl⟩
      exact hany ⟨b, hb, rfl⟩
    simp [List.nodup_append, h, hc]

/-- Filtering the overwrite map for the key returns the single updated row
when the key is present and keys are distinct, and nothing otherwise. -/
theorem overwrite_filter (c : String) (l : Int) :
    ∀ bs : List Budget, (bs.map Budget.category).Nodup →
      (bs.map (fun b =>
          if b.category = c then { b with monthly_limit := l } else b)).filter
          (fun b => decide (b.category = c)) =
        if bs.any (fun b => decide (b.category = c)) then [⟨c, l⟩] else [] := by
  intro bs
  induction bs with
  | nil => intro _; simp
  | cons b bs ih =>
      intro h
      simp only [List.map_cons, List.nodup_cons, List.mem_map] at h
      by_cases hb : b.category = c
      · have htail : ∀ b2 ∈ bs, b2.category ≠ c := by
          intro b2 hb2 hcontr
          exact h.1 ⟨b2, hb2, by rw [hcontr, hb]⟩
        have hmapid : bs.map (fun b2 =>
            if b2.category = c then { b2 with monthly_limit := l } else b2) = bs := by
          conv_rhs => rw [← List.map_id bs]
          exact List.map_congr_left fun b2 hb2 => by simp [htail b2 hb2]
        have hfilnil : bs.filter (fun b2 => decide (b2.category = c)) = [] := by
          rw [List.filter_eq_nil_iff]
          intro b2 hb2
          simp [htail b2 hb2]
        simp [List.map_cons, hmapid, List.filter_cons, List.any_cons, hfilnil, hb]
      · have htl := ih h.2
        simp only [List.map_cons, if_neg hb, List.filter_cons, List.any_cons]
        simp [hb, htl]

/-- After an upsert with distinct keys, the rows with the upserted key are
exactly the single row carrying the new limit. -/
theorem upsertBudget_filter (c : String) (l : Int) (bs : List Budget)
    (h : (bs.map Budget.category).Nodup) :
    (upsertBudget c l bs).filter (fun b => decide (b.category = c)) = [⟨c, l⟩] := by
  by_cases hany : bs.any (fun b => decide (b.category = c))
  · rw [upsertBudget, if_pos hany, overwrite_filter c l bs h, if_pos hany]
  · rw [upsertBudget, if_neg hany, List.filter_append]
    have h1 : bs.filter (fun b => decide (b.category = c)) = [] := by
      rw [List.filter_eq_nil_iff]
      intro b hb
      simp only [List.any_eq_true, decide_eq_true_eq] at hany
      simp only [decide_eq_true_eq]
      intro hc
      exact hany ⟨b, hb, hc⟩
    rw [h1]
    simp

/-- Claim C4: starting from a state whose budget keys are distinct (the
primary-key invariant), `set_budget c l1` then `set_budget c l2` leaves
exactly one budget row for `c`, carrying `l2`; a single `set_budget`
preserves key distinctness, appends a new row when the category is unseen,
and otherwise keeps the key set unchanged while overwriting the limit of the
row for `c`. -/
theorem set_budget_spec (c : String) (l1 l2 : Int) (db : DB)
    (h : (db.budgets.map Budget.category).Nodup) :
    ((set_budget c l2 (set_budget c l1 db).2).2.budgets.filter
        (fun b => decide (b.category = c))) = [⟨c, l2⟩] ∧
    (((set_budget c l1 db).2.budgets.map Budget.category).Nodup) ∧
    ((∀ b ∈ db.budgets, b.category ≠ c) →
        (set_budget c l1 db).2.budgets = db.budgets ++ [⟨c, l1⟩]) ∧
    ((∃ b ∈ db.budgets, b.category = c) →
        (set_budget c l1 db).2.budgets.map Budget.category =
            db.budgets.map Budget.category ∧
        ∀ b ∈ (set_budget c l1 db).2.budgets, b.category = c →
            b.monthly_limit = l1) := by
  refine ⟨?_, upsertBudget_nodup c l1 db.budgets h, ?_, ?_⟩
  · exact upsertBudget_filter c l2 _ (upsertBudget_nodup c l1 db.budgets h)
  · intro hnone
    have hany : ¬ db.budgets.any (fun b => decide (b.category = c)) = true := by
      simp only [List.any_eq_true, decide_eq_true_eq]
      rintro ⟨b, hb, hc⟩
      exact hnone b hb hc
    show upsertBudget c l1 db.budgets = db.budgets ++ [⟨c, l1⟩]
    rw [upsertBudget, if_neg hany]
  · intro hsome
    have hany : db.budgets.any (fun b => decide (b.category = c)) = true := by
      simp only [List.any_eq_true, decide_eq_true_eq]
      exact hsome
    constructor
    · show (upsertBudget c l1 db.budgets).map Budget.category =
        db.budgets.map Budget.category
      rw [upsertBudget_categories, if_pos hany]
    · intro b hb hc
      show b.monthly_limit = l1
      have : b ∈ upsertBudget c l1 db.budgets := hb
      rw [upsertBudget, if_pos hany] at this
      rcases List.mem_map.mp this with ⟨b0, _, rfl⟩
      by_cases h0 : b0.category = c
      · simp [h0]
      · rw [if_neg h0] at hc ⊢
        exact absurd hc h0

/-- Witness for claim C4: on the fresh database, budgeting `food` at 100 and
then 200 leaves exactly the single row with limit 200. -/
theorem set_budget_spec_witness :
    ((set_budget "food" 200 (set_budget "food" 100 init_db).2).2.budgets.filter
        (fun b => decide (b.category = "food"))) = [⟨"food", 200⟩] :=
  (set_budget_spec "food" 100 200 init_db (by decide)).1

/-- A list of strings whose elements all equal `c` deduplicates to `[]` or
`[c]`. -/
theorem dedup_const (c : String) :
    ∀ l : List String, (∀ x ∈ l, x = c) →
      l.dedup = if l = [] then [] else [c] := by
  intro l
  induction l with
  | nil => intro _; simp
  | cons a l ih =>
      intro h
      have ha : a = c := h a (List.mem_cons_self a l)
      subst ha
      have ht : ∀ x ∈ l, x = a := fun x hx => h x (List.mem_cons_of_mem a hx)
      by_cases hl : l = []
      · subst hl; simp
      · have hmem : a ∈ l := by
          cases l with
          | nil => exact absurd rfl hl
          | cons b bs =>
              have hb : b = a := ht b (List.mem_cons_self b bs)
              rw [← hb]
              exact List.mem_cons_self b bs
        rw [List.dedup_cons_of_mem hmem, ih ht]
        simp [hl]

/-- Claim C7 (amended to non-empty category arguments): for a given
non-empty category `c`, `summarize` restricts to the expenses of category
`c` before grouping, so the result has at most one row; any returned row is
labelled `c` and totals the amounts of the in-range expenses of category
`c`; and the row exists whenever some in-range expense has category `c`. -/
theorem summarize_category_spec (d1 d2 c : String) (db : DB) (hc : c ≠ "") :
    (summarize d1 d2 (some c) db).length ≤ 1 ∧
    (∀ r ∈ summarize d1 d2 (some c) db,
      r.1 = c ∧
      r.2 = ((db.expenses.filter (fun e =>
          decide (e.category = c) && dateBetween d1 d2 e.date)).map (·.amount)).sum) ∧
    ((∃ e ∈ db.expenses, dateBetween d1 d2 e.date = true ∧ e.category = c) →
      (summarize d1 d2 (some c) db).length = 1) := by
  have hff : (db.expenses.filter (fun e => dateBetween d1 d2 e.date)).filter
      (fun e => decide (e.category = c)) =
      db.expenses.filter (fun e => decide (e.category = c) && dateBetween d1 d2 e.date) := by
    rw [List.filter_filter]
  set rows := db.expenses.filter
    (fun e => decide (e.category = c) && dateBetween d1 d2 e.date) with hrows
  have hallc : ∀ x ∈ rows.map (fun e => e.category), x = c := by
    intro x hx
    rcases List.mem_map.mp hx with ⟨e, he, rfl⟩
    have h2 := (List.mem_filter.mp he).2
    rw [Bool.and_eq_true, decide_eq_true_eq] at h2
    exact h2.1
  have hfix : rows.filter (fun e => decide (e.category = c)) = rows := by
    rw [List.filter_eq_self]
    intro e he
    have h2 := (List.mem_filter.mp he).2
    rw [Bool.and_eq_true] at h2
    exact h2.1
  have hkey : summarize d1 d2 (some c) db =
      if rows = [] then [] else [(c, (rows.map (fun e => e.amount)).sum)] := by
    simp only [summarize, if_neg hc, hff]
    rw [dedup_const c _ hallc]
    by_cases hnil : rows = []
    · simp [hnil]
    · rw [if_neg (fun hh => hnil (List.map_eq_nil_iff.mp hh)), if_neg hnil]
      show [(c, ((rows.filter (fun e => decide (e.category = c))).map (·.amount)).sum)] = _
      rw [hfix]
  refine ⟨?_, ?_, ?_⟩
  · rw [hkey]
    by_cases hnil : rows = [] <;> simp [hnil]
  · intro r hr
    rw [hkey] at hr
    by_cases hnil : rows = []
    · rw [if_pos hnil] at hr
      simp at hr
    · rw [if_neg hnil] at hr
      have := List.mem_singleton.mp hr
      subst this
      exact ⟨rfl, rfl⟩
  · rintro ⟨e, he, hbtw, hcat⟩
    have hmem : e ∈ rows := List.mem_filter.mpr ⟨he, by simp [hbtw, hcat]⟩
    have hnil : rows ≠ [] := by
      intro hh
      rw [hh] at hmem
      simp at hmem
    rw [hkey, if_neg hnil]
    rfl

/-- Two-category database: an expense of 10 in `a` and 20 in `b`, both in
January 2024. -/
def exdb7 : DB :=
  ⟨[⟨1, "2024-01-10", 10, "a", "", ""⟩, ⟨2, "2024-01-11", 20, "b", "", ""⟩], [], [], 2, 0⟩

/-- Counterexample to claim C7 as stated: the category argument `""` is
given (non-absent), yet `summarize` does not restrict to it — the Python
truthiness test skips the filter — and the result has two rows. -/
theorem summarize_empty_category_counterexample :
    ¬ (summarize "2024-01-01" "2024-12-31" (some "") exdb7).length ≤ 1 := by
  have h1 : dateBetween "2024-01-01" "2024-12-31" "2024-01-10" = true := by
    rw [dateBetween, decide_eq_true_eq]
    exact ⟨by rw [String.le_iff_toList_le]; decide, by rw [String.le_iff_toList_le]; decide⟩
  have h2 : dateBetween "2024-01-01" "2024-12-31" "2024-01-11" = true := by
    rw [dateBetween, decide_eq_true_eq]
    exact ⟨by rw [String.le_iff_toList_le]; decide, by rw [String.le_iff_toList_le]; decide⟩
  have hbase : exdb7.expenses.filter
      (fun e => dateBetween "2024-01-01" "2024-12-31" e.date) = exdb7.expenses := by
    rw [List.filter_eq_self]
    intro e he
    simp only [exdb7, List.mem_cons, List.not_mem_nil, or_false] at he
    rcases he with rfl | rfl
    · exact h1
    · exact h2
  simp only [summarize, if_pos rfl, hbase]
  rw [List.length_map, List.length_insertionSort]
  decide

/-- Witness for the amended claim C7, at the one-expense database `wdb3`
with the non-empty category `shopping`. -/
theorem summarize_category_spec_witness :
    ("shopping" : String) ≠ "" ∧
    (summarize "2024-01-01" "2024-12-31" (some "shopping") wdb3).length ≤ 1 :=
  ⟨by decide,
   (summarize_category_spec "2024-01-01" "2024-12-31" "shopping" wdb3 (by decide)).1⟩

/-- Claim C2 (amended to the code's month matching): with distinct budget
keys (the primary-key invariant), `budget_status m` returns one record per
budgeted category, in ascending category order; each record's `spent` is the
sum of the amounts of the stored expenses of that category whose first seven
date characters (`substr(date,1,7)`) equal `m` — for a seven-character
`YYYY-MM` month this is exactly prefix matching — with `spent = 0` when no
expense matches, and `remaining = monthly_limit - spent`. -/
theorem budget_status_spec (m : String) (db : DB)
    (h : (db.budgets.map Budget.category).Nodup) :
    (budget_status m db).Sorted (fun r r' : BudgetRow => r.category ≤ r'.category) ∧
    ((budget_status m db).map (fun r => Budget.mk r.category r.monthly_limit)).Perm
        db.budgets ∧
    ((budget_status m db).map (fun r => r.category)).Nodup ∧
    ∀ r ∈ budget_status m db,
      r.spent = ((db.expenses.filter (fun e =>
          decide (e.category = r.category ∧ e.date.take 7 = m))).map (·.amount)).sum ∧
      r.remaining = r.monthly_limit - r.spent ∧
      ((∀ e ∈ db.expenses, ¬ (e.category = r.category ∧ e.date.take 7 = m)) →
          r.spent = 0) := by
  have hmm : ∀ cat : String, db.expenses.filter (monthMatch m cat) =
      db.expenses.filter (fun e => decide (e.category = cat ∧ e.date.take 7 = m)) := by
    intro cat
    apply List.filter_congr
    intro e _
    simp [monthMatch]
  have hper : (List.insertionSort (fun a b : Budget => a.category ≤ b.category)
      db.budgets).Perm db.budgets := List.perm_insertionSort _ _
  refine ⟨?_, ?_, ?_, ?_⟩
  · exact List.pairwise_map.mpr
      (List.sorted_insertionSort (fun a b : Budget => a.category ≤ b.category) db.budgets)
  · have hmap : (budget_status m db).map (fun r => Budget.mk r.category r.monthly_limit) =
        List.insertionSort (fun a b : Budget => a.category ≤ b.category) db.budgets := by
      rw [budget_status, List.map_map]
      conv_rhs => rw [← List.map_id (List.insertionSort
        (fun a b : Budget => a.category ≤ b.category) db.budgets)]
      exact List.map_congr_left fun b _ => rfl
    rw [hmap]
    exact hper
  · have hmap : (budget_status m db).map (fun r => r.category) =
        (List.insertionSort (fun a b : Budget => a.category ≤ b.category)
          db.budgets).map Budget.category := by
      rw [budget_status, List.map_map]
      rfl
    rw [hmap]
    exact ((hper.map Budget.category).nodup_iff).mpr h
  · intro r hr
    rw [budget_status] at hr
    rcases List.mem_map.mp hr with ⟨b, _, rfl⟩
    refine ⟨?_, rfl, ?_⟩
    · show ((db.expenses.filter (monthMatch m b.category)).map (·.amount)).sum = _
      rw [hmm b.category]
    · intro hnone
      have hnil : db.expenses.filter (monthMatch m b.category) = [] := by
        rw [List.filter_eq_nil_iff]
        intro e he
        have := hnone e he
        simp only [monthMatch, Bool.and_eq_true, decide_eq_true_eq]
        tauto
      show ((db.expenses.filter (monthMatch m b.category)).map (·.amount)).sum = 0
      rw [hnil]
      rfl

/-- One budgeted category `food` with limit 100 and a single matching
expense of 50 on 2024-01-15. -/
def exdb2 : DB :=
  ⟨[⟨1, "2024-01-15", 50, "food", "", ""⟩], [], [⟨"food", 100⟩], 1, 0⟩

/-- Counterexample to claim C2 as stated: for the month string `2024`, the
code compares `substr(date,1,7)` — seven characters — against the whole
argument, so the matching expense whose date merely has `2024` as a prefix
is not counted: the code reports `spent = 0` although a prefix-matching
expense of amount 50 exists. -/
theorem budget_status_prefix_counterexample :
    ¬ (∀ r ∈ budget_status "2024" exdb2,
        r.spent = ((exdb2.expenses.filter (fun e =>
            decide (e.category = r.category) &&
              ("2024".toList.isPrefixOf e.date.toList))).map (·.amount)).sum) := by
  intro hall
  have hmem : (⟨"food", 100, 0, 100⟩ : BudgetRow) ∈ budget_status "2024" exdb2 := by
    rw [budget_status]
    decide
  have := hall _ hmem
  revert this
  decide

/-- Witness for the amended claim C2, at the database `exdb2` (distinct
budget keys hold trivially for its single budget row). -/
theorem budget_status_spec_witness :
    ((exdb2.budgets.map Budget.category).Nodup) ∧
    ((budget_status "2024-01" exdb2).map (fun r => r.category)).Nodup :=
  ⟨by decide, (budget_status_spec "2024-01" exdb2 (by decide)).2.2.1⟩
